import Mathlib

/-!
Verification of the SRP-6a library (Go package `srp`).

This file is a shallow embedding of the library into Lean 4.  Byte strings
are modelled as `List Nat` (one entry per byte), `math/big` integers as
`Nat` (they are always non-negative in this code base), and fallible Go
functions as `Except SrpError`.  Randomness (the private ephemeral
exponents) is passed in explicitly as the byte string the CSPRNG returned.
The hash, the KDF and the NFKD normalization are parameters of the model,
exactly as the Go code is parameterized by `Params.Hash`, `Params.KDF`
and the external `norm.NFKD` table.

Methods with pointer receivers are modelled as functions returning the
updated session state; methods that perform no assignment return the
state unchanged, mirroring the absence of assignments in their bodies.
-/

deriving instance DecidableEq for Except

namespace Srp

/-- Big-endian interpretation of a byte string as a natural number;
embeds `big.Int.SetBytes`. -/
def bytesToNat (l : List Nat) : Nat :=
  l.foldl (fun acc d => acc * 256 + d) 0

/-- Fuel-indexed helper for `natToBytes`; structural recursion on the
fuel so that the kernel can evaluate it. -/
def natToBytesAux : Nat → Nat → List Nat
  | 0, _ => []
  | fuel + 1, n => if n = 0 then [] else natToBytesAux fuel (n / 256) ++ [n % 256]

/-- Minimal big-endian byte encoding of a natural number (no leading
zero bytes, the empty string for zero); embeds `big.Int.Bytes`. -/
def natToBytes (n : Nat) : List Nat :=
  natToBytesAux n n

/-- Fuel-indexed helper for `bitLen` (structural recursion on fuel). -/
def bitLenAux : Nat → Nat → Nat
  | 0, _ => 0
  | fuel + 1, n => if n = 0 then 0 else bitLenAux fuel (n / 2) + 1

/-- Number of binary digits of a natural number; embeds `big.Int.BitLen`. -/
def bitLen (n : Nat) : Nat :=
  bitLenAux n n

/-- Error kinds surfaced by the package.  The Go code uses `errors.New`
values; each distinct error value or message is one constructor here. -/
inductive SrpError where
  /-- Message: invalid public exponent (from `SetA` and `SetB`). -/
  | invalidEphemeralKey : SrpError
  /-- Message: invalid u value (from `Client.SetB`). -/
  | invalidU : SrpError
  /-- The `pad` helper rejected an input longer than the target width. -/
  | padding : SrpError
  /-- The `xorBytes` helper rejected slices of different lengths. -/
  | xorLength : SrpError
  /-- `ErrServerNoReady`. -/
  | serverNotReady : SrpError
  /-- `ErrClientNotReady`. -/
  | clientNotReady : SrpError
  /-- Message: client must show their proof first (from `ComputeM2`). -/
  | m1NotVerified : SrpError
  /-- Message: failed to verify client proof M1 (the sticky error). -/
  | authenticationFailed : SrpError
  /-- `NewTriplet` panic: username length cannot exceed 255 bytes. -/
  | tooLongUsername : SrpError
  /-- `NewTriplet` panic: salt length cannot exceed math.MaxUint8. -/
  | tooLongSalt : SrpError
deriving DecidableEq, Repr

/-- Classification of the spec error taxonomy (section 7): an error is of
the NotReady kind when it reports a method called before the prerequisite
state transition. -/
def SrpError.isNotReadyKind : SrpError → Bool
  | .serverNotReady => true
  | .clientNotReady => true
  | .m1NotVerified => true
  | _ => false

/-- The `Params` combination of the Go package: a Diffie-Hellman group
(`Group.N`, `Group.Generator`, `Group.ExponentSize`), the hash, and the
key derivation function.  The hash is modelled as the digest function
(`h.Sum(nil)[:h.Size()]` for the bytes written) together with its output
size `hashSize` (`h.Size()`); the KDF as a pure function of
`(username, password, salt)`, since the KDFs shipped with the package
never return an error. -/
structure Params where
  g : Nat
  N : Nat
  exponentSize : Nat
  hash : List Nat → List Nat
  hashSize : Nat
  kdf : List Nat → List Nat → List Nat → List Nat

/-- Digest of a single byte string; embeds `Params.hashBytes`. -/
def Params.hashBytes (p : Params) (a : List Nat) : List Nat :=
  p.hash a

/-- Left-pads `b` with zero bytes to `bits / 8` bytes; embeds `pad`.
Fails when `b` is already longer than the target width. -/
def pad (b : List Nat) (bits : Nat) : Option (List Nat) :=
  let length := bits / 8
  if b.length ≤ length then some (List.replicate (length - b.length) 0 ++ b) else none

/-- Byte-wise XOR of two equal-length byte strings; embeds `xorBytes`. -/
def xorBytes (a b : List Nat) : Option (List Nat) :=
  if a.length = b.length then some (List.zipWith (fun x y => x ^^^ y) a b) else none

/-- Constant-time proof comparison; `subtle.ConstantTimeCompare` returns 1
exactly when the two byte strings have the same length and contents, so it
embeds as list equality. -/
def checkProof (mx proof : List Nat) : Bool :=
  mx == proof

/-- k = H(N | PAD(g)); embeds `computeLittleK`. -/
def computeLittleK (p : Params) : Except SrpError Nat :=
  match pad (natToBytes p.g) (bitLen p.N) with
  | none => .error .padding
  | some gp => .ok (bytesToNat (p.hashBytes (natToBytes p.N ++ gp)))

/-- u = H(PAD(A) | PAD(B)); embeds `computeLittleU` (the `A == nil`
guard never fires in the flows modelled here, where A is always set). -/
def computeLittleU (p : Params) (A B : Nat) : Except SrpError Nat :=
  match pad (natToBytes A) (bitLen p.N) with
  | none => .error .padding
  | some bA =>
    match pad (natToBytes B) (bitLen p.N) with
    | none => .error .padding
    | some bB => .ok (bytesToNat (p.hashBytes (bA ++ bB)))

/-- M1 = H(H(N) XOR H(g) | H(U) | s | A | B | K); embeds `computeM1`.
A and B enter as their minimal big-endian encodings (`A.Bytes()`). -/
def computeM1 (p : Params) (username salt : List Nat) (A B : Nat) (K : List Nat) :
    Except SrpError Nat :=
  let hN := p.hashBytes (natToBytes p.N)
  let hg := p.hashBytes (natToBytes p.g)
  let hU := p.hashBytes username
  match xorBytes hN hg with
  | none => .error .xorLength
  | some groupXOR =>
    .ok (bytesToNat (p.hashBytes
      (groupXOR ++ hU ++ salt ++ natToBytes A ++ natToBytes B ++ K)))

/-- M2 = H(A | M1 | K); embeds `computeM2` (its only error paths are
unreachable hasher write failures). -/
def computeM2 (p : Params) (A M1 : Nat) (K : List Nat) : Nat :=
  bytesToNat (p.hashBytes (natToBytes A ++ natToBytes M1 ++ K))

/-- Server premaster S = (A * v^u) ^ b mod N; embeds `computeServerS`:
`base` is `(v^u mod N) * A` unreduced, then `Exp(base, b, N)`. -/
def computeServerS (p : Params) (v u A b : Nat) : Nat :=
  ((v ^ u % p.N) * A) ^ b % p.N

/-- Client premaster S = (B - k * g^x) ^ (a + u * x) mod N; embeds
`computeClientS`.  The subtraction happens in ℤ (the difference may be
negative); `big.Int.Exp` with a positive modulus returns the
representative in [0, N), which is `Int.emod`. -/
def computeClientS (p : Params) (k x u B a : Nat) : Nat :=
  ((((B : Int) - (k : Int) * ((p.g ^ x % p.N : Nat) : Int)) ^ (a + u * x)) % (p.N : Int)).toNat

/-- Validity predicate for a peer-supplied public ephemeral key; embeds
`isValidEphemeralKey`: `i mod N` must be nonzero and `gcd(i, N)` must
be 1. -/
def isValidEphemeralKey (p : Params) (i : Nat) : Bool :=
  if i % p.N = 0 then false
  else if Nat.gcd i p.N ≠ 1 then false
  else true

/-- Server ephemeral key pair; embeds `newServerKeyPair` with the CSPRNG
output passed in as `randKey`: b = SetBytes(randKey),
B = (k*v mod N + g^b mod N) mod N. -/
def newServerKeyPair (p : Params) (k v : Nat) (randKey : List Nat) : Nat × Nat :=
  let b := bytesToNat randKey
  (b, ((k * v % p.N) + p.g ^ b % p.N) % p.N)

/-- Client ephemeral key pair; embeds `newClientKeyPair`:
a = SetBytes(randKey), A = g^a mod N. -/
def newClientKeyPair (p : Params) (randKey : List Nat) : Nat × Nat :=
  let a := bytesToNat randKey
  (a, p.g ^ a % p.N)

/-- Builds the length-prefixed triplet
`[len(username)] username [len(salt)] salt verifier`; embeds `NewTriplet`
(the variant whose argument order matches the call in `Server.Reset`).
The Go function panics on over-length inputs; the panic is modelled as an
error result.  Note the source checks the salt against `math.MaxInt8`
(127), not `math.MaxUint8`, although its panic message says 255. -/
def NewTriplet (username salt verifier : List Nat) : Except SrpError (List Nat) :=
  if 255 < username.length then .error .tooLongUsername
  else if 127 < salt.length then .error .tooLongSalt
  else .ok (username.length :: (username ++ (salt.length :: (salt ++ verifier))))

/-- Username field of a triplet, `t[1 : 1+t[0]]`; embeds
`Triplet.Username`. -/
def tripletUsername (t : List Nat) : List Nat :=
  (t.drop 1).take (t.getD 0 0)

/-- Salt field of a triplet; embeds `Triplet.Salt`. -/
def tripletSalt (t : List Nat) : List Nat :=
  let usernameLen := t.getD 0 0
  let saltLen := t.getD (usernameLen + 1) 0
  (t.drop (usernameLen + 2)).take saltLen

/-- Verifier field of a triplet (everything after the salt); embeds
`Triplet.Verifier`. -/
def tripletVerifier (t : List Nat) : List Nat :=
  let usernameLen := t.getD 0 0
  let saltLen := t.getD (usernameLen + 1) 0
  t.drop (usernameLen + saltLen + 2)

/-- Client session state, field for field after the Go `Client` struct. -/
structure Client where
  username : List Nat
  salt : List Nat
  x : Nat
  a : Nat
  xA : Nat
  xB : Option Nat
  m1 : Option Nat
  m2 : Option Nat
  xS : Option Nat
  xK : Option (List Nat)
  params : Params

/-- Constructs a client; embeds `NewClient` with the CSPRNG output passed
in as `randKey` and the NFKD normalization (an external unicode table
lookup) passed in as the function `nfkd`.  The KDF is total in this
model, so construction always succeeds. -/
def NewClient (nfkd : List Nat → List Nat) (p : Params)
    (username password salt : List Nat) (randKey : List Nat) : Client :=
  let x := bytesToNat (p.kdf (nfkd username) (nfkd password) salt)
  let pair := newClientKeyPair p randKey
  ⟨username, salt, x, pair.1, pair.2, none, none, none, none, none, p⟩

/-- Minimal big-endian bytes of the client public ephemeral key; embeds
`Client.A`. -/
def clientA (c : Client) : List Nat :=
  natToBytes c.xA

/-- Embeds `Client.SetB`: validate B, compute k, u (rejecting u = 0),
S, K, M1, M2, and store them. -/
def clientSetB (c : Client) (pub : List Nat) : Except SrpError Client :=
  let B := bytesToNat pub
  if ¬ isValidEphemeralKey c.params B then .error .invalidEphemeralKey
  else match computeLittleK c.params with
  | .error e => .error e
  | .ok k =>
    match computeLittleU c.params c.xA B with
    | .error e => .error e
    | .ok u =>
      if u = 0 then .error .invalidU
      else
        let S := computeClientS c.params k c.x u B c.a
        let K := c.params.hashBytes (natToBytes S)
        match computeM1 c.params c.username c.salt c.xA B K with
        | .error e => .error e
        | .ok M1 =>
          let M2 := computeM2 c.params c.xA M1 K
          .ok { c with xB := some B, m1 := some M1, m2 := some M2,
                       xS := some S, xK := some K }

/-- Embeds `Client.ComputeM1`: the cached proof as minimal big-endian
bytes, or `ErrClientNotReady`.  No assignment occurs, so the state is
returned unchanged. -/
def clientComputeM1 (c : Client) : Except SrpError (List Nat) × Client :=
  (match c.m1 with
   | none => .error .clientNotReady
   | some m => .ok (natToBytes m), c)

/-- Embeds `Client.CheckM2`: constant-time comparison against the cached
M2, or `ErrClientNotReady`. -/
def clientCheckM2 (c : Client) (M2 : List Nat) : (Bool × Option SrpError) × Client :=
  (match c.m2 with
   | none => (false, some .clientNotReady)
   | some m => (checkProof (natToBytes m) M2, none), c)

/-- Embeds `Client.SessionKey`: `h.Sum(c.xK)[:h.Size()]` on a fresh
hasher, which is `(xK ++ H(empty)).take hashSize`. -/
def clientSessionKey (c : Client) : Except SrpError (List Nat) × Client :=
  (match c.xK with
   | none => .error .clientNotReady
   | some K => .ok ((K ++ c.params.hash []).take c.params.hashSize), c)

/-- Server session state, field for field after the Go `Server` struct. -/
structure Server where
  triplet : List Nat
  xA : Option Nat
  b : Nat
  xB : Nat
  m1 : Option Nat
  m2 : Option Nat
  xS : Option Nat
  xK : Option (List Nat)
  params : Params
  err : Option SrpError
  verifiedM1 : Bool

/-- Embeds `Server.Reset` (and through it `NewServer`): compute k, build
the triplet, draw the key pair.  Reset overwrites every field of the
receiver, so the result does not depend on the previous state and the
receiver is omitted.  The CSPRNG output is passed in as `randKey`. -/
def NewServer (p : Params) (username salt verifier : List Nat)
    (randKey : List Nat) : Except SrpError Server :=
  match computeLittleK p with
  | .error e => .error e
  | .ok k =>
    match NewTriplet username salt verifier with
    | .error e => .error e
    | .ok t =>
      let pair := newServerKeyPair p k (bytesToNat verifier) randKey
      .ok ⟨t, none, pair.1, pair.2, none, none, none, none, p, none, false⟩

/-- Minimal big-endian bytes of the server public ephemeral key; embeds
`Server.B`. -/
def serverB (s : Server) : List Nat :=
  natToBytes s.xB

/-- Body of `Server.SetA` after `A := SetBytes(public)`; every later use
of the input goes through the integer A (`A.Bytes()` for the hashes). -/
def serverSetAVal (s : Server) (A : Nat) : Except SrpError Server :=
  if ¬ isValidEphemeralKey s.params A then .error .invalidEphemeralKey
  else
    let username := tripletUsername s.triplet
    let salt := tripletSalt s.triplet
    let v := bytesToNat (tripletVerifier s.triplet)
    match computeLittleU s.params A s.xB with
    | .error e => .error e
    | .ok u =>
      let S := computeServerS s.params v u A s.b
      let K := s.params.hashBytes (natToBytes S)
      match computeM1 s.params username salt A s.xB K with
      | .error e => .error e
      | .ok M1 =>
        let M2 := computeM2 s.params A M1 K
        .ok { s with xA := some A, m1 := some M1, m2 := some M2,
                     xS := some S, xK := some K }

/-- Embeds `Server.SetA`: parse A and run the body.  Note the method
does not consult the sticky error. -/
def serverSetA (s : Server) (pub : List Nat) : Except SrpError Server :=
  serverSetAVal s (bytesToNat pub)

/-- Embeds `Server.CheckM1`: sticky error first, then readiness, then the
constant-time comparison.  On mismatch the sticky error is latched and
the returned error is nil. -/
def serverCheckM1 (s : Server) (M1 : List Nat) : (Bool × Option SrpError) × Server :=
  match s.err with
  | some e => ((false, some e), s)
  | none =>
    match s.m1 with
    | none => ((false, some .serverNotReady), s)
    | some m =>
      if checkProof (natToBytes m) M1 then
        ((true, none), { s with verifiedM1 := true })
      else
        ((false, none), { s with verifiedM1 := false,
                                 err := some .authenticationFailed })

/-- Embeds `Server.ComputeM2`: sticky error, readiness, then the
`verifiedM1` gate.  No assignment occurs, so the state is returned
unchanged. -/
def serverComputeM2 (s : Server) : Except SrpError (List Nat) × Server :=
  (match s.err with
   | some e => .error e
   | none =>
     match s.m2 with
     | none => .error .serverNotReady
     | some m =>
       if s.verifiedM1 then .ok (natToBytes m) else .error .m1NotVerified, s)

/-- Embeds `Server.SessionKey`: sticky error, readiness, then the raw
session key K. -/
def serverSessionKey (s : Server) : Except SrpError (List Nat) × Server :=
  (match s.err with
   | some e => .error e
   | none =>
     match s.xK with
     | none => .error .serverNotReady
     | some K => .ok K, s)

/-- The serialized state record; embeds `serverState` (the JSON blob).
S and K have no field here: they are recomputed from A on restore. -/
structure ServerState where
  triplet : List Nat
  littleB : List Nat
  bigB : List Nat
  bigA : Option (List Nat)
  verifiedM1 : Bool
deriving DecidableEq

/-- Embeds `Server.MarshalJSON` / `Server.Save` at the level of the
record the JSON object encodes: fails on a sticky error, otherwise
stores the triplet, b and B (minimal big-endian), A when set, and the
`verifiedM1` flag. -/
def serverSave (s : Server) : Except SrpError ServerState :=
  match s.err with
  | some e => .error e
  | none => .ok ⟨s.triplet, natToBytes s.b, natToBytes s.xB,
                 s.xA.map natToBytes, s.verifiedM1⟩

/-- Embeds `RestoreServer` plus `Server.UnmarshalJSON`: clear every
field, reload the stored ones, and re-run `SetA` when A was stored. -/
def serverRestore (p : Params) (st : ServerState) : Except SrpError Server :=
  let base : Server :=
    ⟨st.triplet, none, bytesToNat st.littleB, bytesToNat st.bigB,
     none, none, none, none, p, none, st.verifiedM1⟩
  match st.bigA with
  | none => .ok base
  | some bigA => serverSetA base bigA

/-- Embeds `Server.Reset`: it overwrites every field of the receiver
with freshly computed values, so the result does not depend on the
previous state and coincides with `NewServer` (which is implemented as
`Reset` on a zero-valued server). -/
def serverReset (_ : Server) (p : Params) (username salt verifier : List Nat)
    (randKey : List Nat) : Except SrpError Server :=
  NewServer p username salt verifier randKey

/-- Embeds `ComputeVerifier`: x from the KDF over NFKD-normalized
username and password, v = g^x mod N, packed into a triplet. -/
def ComputeVerifier (nfkd : List Nat → List Nat) (p : Params)
    (username password salt : List Nat) : Except SrpError (List Nat) :=
  let x := bytesToNat (p.kdf (nfkd username) (nfkd password) salt)
  let v := p.g ^ x % p.N
  NewTriplet username salt (natToBytes v)

/-- A one-byte toy digest with nonzero output, used to exercise the
definitions on concrete inputs over the group N = 251 (one byte wide,
so the RFC padding is to one byte). -/
def toyHash : List Nat → List Nat := fun bs => [(bs.foldl (· + ·) 0) % 5 + 1]

/-- Toy parameter set with a deterministic KDF. -/
def toyP : Params := ⟨2, 251, 1, toyHash, 1, fun _ _ _ => [3]⟩

/-- The server `NewServer toyP [7] [9] [8] [3]` constructs. -/
def toyServerFresh : Server :=
  ⟨[1, 7, 1, 9, 8], none, 3, 40, none, none, none, none, toyP, none, false⟩

/-- The server after `SetA [4]` on `toyServerFresh`. -/
def toyServerSetA : Server :=
  ⟨[1, 7, 1, 9, 8], some 4, 3, 40, some 1, some 4, some 2, some [3], toyP, none, false⟩

/-- The server after a failed `CheckM1` on `toyServerSetA`: the sticky
error is latched. -/
def toyServerFailed : Server :=
  ⟨[1, 7, 1, 9, 8], some 4, 3, 40, some 1, some 4, some 2, some [3], toyP,
   some .authenticationFailed, false⟩

/-- The client `NewClient id toyP [7] [8] [9] [2]` constructs. -/
def toyClientFresh : Client :=
  ⟨[7], [9], 3, 2, 4, none, none, none, none, none, toyP⟩

/-- The client after `SetB [40]` on `toyClientFresh`. -/
def toyClientSetB : Client :=
  ⟨[7], [9], 3, 2, 4, some 40, some 1, some 4, some 2, some [3], toyP⟩

/-- The saved state of `toyServerSetA`. -/
def toyState : ServerState := ⟨[1, 7, 1, 9, 8], [3], [40], some [4], false⟩

/-- A degenerate digest that is constantly the zero byte; legal in the
model exactly as a custom hash registered with `crypto.RegisterHash`
would be in Go. -/
def zeroHash : List Nat → List Nat := fun _ => [0]

/-- Parameter set whose hash is constantly `[0]`, so that every
scrambling parameter u is 0. -/
def pZero : Params := ⟨2, 251, 1, zeroHash, 1, fun _ _ _ => [3]⟩

/-- The client `NewClient id pZero [7] [8] [9] [2]` constructs. -/
def toyClientZero : Client :=
  ⟨[7], [9], 3, 2, 4, none, none, none, none, none, pZero⟩

/-- A two-byte toy digest whose first byte is always zero. -/
def twoHash : List Nat → List Nat := fun _ => [0, 5]

/-- Parameter set whose digests begin with a zero byte, so that proof
values have a minimal encoding shorter than the digest. -/
def pTwo : Params := ⟨2, 251, 1, twoHash, 2, fun _ _ _ => [3]⟩

/-- The server over `pTwo` after `NewServer pTwo [7] [9] [8] [3]` and
`SetA [3]`. -/
def toyServerTwo : Server :=
  ⟨[1, 7, 1, 9, 8], some 3, 3, 48, some 5, some 5, some 244, some [0, 5], pTwo, none, false⟩

/-- One full honest run of the protocol, as described in the spec data
flow: the verifier triplet is computed from the password, the client is
constructed from the same credentials, the server from the stored
verifier; then `server.SetA(client.A())`, `client.SetB(server.B())`,
`server.CheckM1(client.ComputeM1())`, `client.CheckM2(server.ComputeM2())`,
and both session keys are read.  Returns the two check outcomes and the
two session keys. -/
def honestExchange (nfkd : List Nat → List Nat) (p : Params)
    (username password salt randC randS : List Nat) :
    Except SrpError (Bool × Bool × List Nat × List Nat) :=
  match ComputeVerifier nfkd p username password salt with
  | .error e => .error e
  | .ok t =>
    let c := NewClient nfkd p username password salt randC
    match NewServer p username salt (tripletVerifier t) randS with
    | .error e => .error e
    | .ok s₀ =>
      match serverSetA s₀ (clientA c) with
      | .error e => .error e
      | .ok s₁ =>
        match clientSetB c (serverB s₁) with
        | .error e => .error e
        | .ok c₁ =>
          match (clientComputeM1 c₁).1 with
          | .error e => .error e
          | .ok m1b =>
            let r₁ := serverCheckM1 s₁ m1b
            match (serverComputeM2 r₁.2).1 with
            | .error e => .error e
            | .ok m2b =>
              let r₂ := clientCheckM2 c₁ m2b
              match (clientSessionKey c₁).1, (serverSessionKey r₁.2).1 with
              | .ok ck, .ok sk => .ok (r₁.1.1, r₂.1.1, ck, sk)
              | .error e, _ => .error e
              | .ok _, .error e => .error e

theorem natToBytesAux_zero (fuel : Nat) : natToBytesAux fuel 0 = [] := by
  cases fuel <;> simp [natToBytesAux]

theorem natToBytesAux_fuel_irrel (fuel₁ : Nat) :
    ∀ fuel₂ n, n ≤ fuel₁ → n ≤ fuel₂ →
      natToBytesAux fuel₁ n = natToBytesAux fuel₂ n := by
  induction fuel₁ with
  | zero =>
    intro fuel₂ n h1 _
    have : n = 0 := Nat.le_zero.mp h1
    subst this
    simp [natToBytesAux_zero]
  | succ f ih =>
    intro fuel₂ n h1 h2
    by_cases hn : n = 0
    · subst hn; simp [natToBytesAux_zero]
    · obtain ⟨f₂, rfl⟩ : ∃ f₂, fuel₂ = f₂ + 1 := by
        cases fuel₂ with
        | zero => exact absurd (Nat.le_zero.mp h2) hn
        | succ m => exact ⟨m, rfl⟩
      simp only [natToBytesAux, hn, if_false]
      have hlt : n / 256 < n := Nat.div_lt_self (Nat.pos_of_ne_zero hn) (by omega)
      have h1' : n / 256 ≤ f := by omega
      have h2' : n / 256 ≤ f₂ := by omega
      rw [ih f₂ (n / 256) h1' h2']

/-- Unfolding equation for `natToBytes`. -/
theorem natToBytes_eq (n : Nat) :
    natToBytes n = if n = 0 then [] else natToBytes (n / 256) ++ [n % 256] := by
  by_cases hn : n = 0
  · subst hn; simp [natToBytes, natToBytesAux_zero]
  · obtain ⟨m, rfl⟩ : ∃ m, n = m + 1 := ⟨n - 1, by omega⟩
    simp only [natToBytes, natToBytesAux, hn, if_false]
    have hlt : (m + 1) / 256 < m + 1 := Nat.div_lt_self (by omega) (by omega)
    rw [natToBytesAux_fuel_irrel m ((m + 1) / 256) ((m + 1) / 256) (by omega) (Nat.le_refl _)]

theorem bytesToNat_append_singleton (l : List Nat) (d : Nat) :
    bytesToNat (l ++ [d]) = 256 * bytesToNat l + d := by
  simp [bytesToNat, List.foldl_append, Nat.mul_comm]

theorem bytesToNat_nil : bytesToNat [] = 0 := rfl

theorem bytesToNat_zero_cons (t : List Nat) : bytesToNat (0 :: t) = bytesToNat t := by
  simp [bytesToNat]

/-- Round trip: decoding the minimal encoding gives the number back
(`SetBytes` after `Bytes`). -/
theorem bytesToNat_natToBytes (n : Nat) : bytesToNat (natToBytes n) = n := by
  induction n using Nat.strong_induction_on with
  | _ n ih =>
    rw [natToBytes_eq]
    by_cases hn : n = 0
    · simp [hn, bytesToNat_nil]
    · have hlt : n / 256 < n := Nat.div_lt_self (Nat.pos_of_ne_zero hn) (by omega)
      simp only [hn, if_false, bytesToNat_append_singleton, ih (n / 256) hlt]
      omega

theorem natToBytes_length_le {n k : Nat} (h : n < 256 ^ k) :
    (natToBytes n).length ≤ k := by
  induction k generalizing n with
  | zero =>
    simp only [pow_zero, Nat.lt_one_iff] at h
    simp [h, natToBytes_eq]
  | succ k ih =>
    rw [natToBytes_eq]
    by_cases hn : n = 0
    · simp [hn]
    · have hdiv : n / 256 < 256 ^ k := by
        rw [Nat.div_lt_iff_lt_mul (by omega)]
        calc n < 256 ^ (k + 1) := h
        _ = 256 ^ k * 256 := by ring
      simp only [hn, if_false, List.length_append, List.length_singleton]
      have := ih hdiv
      omega

theorem bytesToNat_lt {l : List Nat} (h : ∀ b ∈ l, b < 256) :
    bytesToNat l < 256 ^ l.length := by
  induction l using List.reverseRecOn with
  | nil => simp [bytesToNat_nil]
  | append_singleton l d ih =>
    rw [bytesToNat_append_singleton]
    have h1 : bytesToNat l < 256 ^ l.length := ih (fun b hb => h b (by simp [hb]))
    have h2 : d < 256 := h d (by simp)
    simp only [List.length_append, List.length_singleton]
    calc 256 * bytesToNat l + d
        ≤ 256 * (256 ^ l.length - 1) + d := by
          have := Nat.le_sub_one_of_lt h1; omega
      _ < 256 ^ (l.length + 1) := by
          have hp : 1 ≤ 256 ^ l.length := Nat.one_le_pow _ _ (by omega)
          rw [pow_succ]
          omega

theorem getD_append_length (l₁ l₂ : List Nat) (d : Nat) :
    (l₁ ++ l₂).getD l₁.length d = l₂.getD 0 d := by
  induction l₁ with
  | nil => rfl
  | cons a t ih => simpa using ih

/-- Shape of a successfully constructed triplet. -/
theorem NewTriplet_ok {username salt verifier t : List Nat}
    (h : NewTriplet username salt verifier = .ok t) :
    username.length ≤ 255 ∧ salt.length ≤ 127 ∧
      t = username.length :: (username ++ (salt.length :: (salt ++ verifier))) := by
  unfold NewTriplet at h
  split at h
  · exact absurd h (by simp)
  · split at h
    · exact absurd h (by simp)
    · refine ⟨by omega, by omega, ?_⟩
      cases h
      rfl

theorem tripletUsername_encode (username salt verifier : List Nat) :
    tripletUsername (username.length :: (username ++ (salt.length :: (salt ++ verifier))))
      = username := by
  simp only [tripletUsername, List.getD_cons_zero, List.drop_succ_cons, List.drop_zero]
  exact List.take_left _ _

theorem tripletSalt_encode (username salt verifier : List Nat) :
    tripletSalt (username.length :: (username ++ (salt.length :: (salt ++ verifier))))
      = salt := by
  simp only [tripletSalt, List.getD_cons_zero, List.getD_cons_succ]
  rw [getD_append_length, List.getD_cons_zero]
  have hdrop : (username.length :: (username ++ (salt.length :: (salt ++ verifier)))).drop
      (username.length + 2) = salt ++ verifier := by
    have hsplit : username.length :: (username ++ (salt.length :: (salt ++ verifier)))
        = (username.length :: (username ++ [salt.length])) ++ (salt ++ verifier) := by
      simp
    rw [hsplit]
    exact List.drop_left' (by simp)
  rw [hdrop]
  exact List.take_left _ _

theorem tripletVerifier_encode (username salt verifier : List Nat) :
    tripletVerifier (username.length :: (username ++ (salt.length :: (salt ++ verifier))))
      = verifier := by
  simp only [tripletVerifier, List.getD_cons_zero, List.getD_cons_succ]
  rw [getD_append_length, List.getD_cons_zero]
  have hsplit : username.length :: (username ++ (salt.length :: (salt ++ verifier)))
      = (username.length :: (username ++ (salt.length :: salt))) ++ verifier := by
    simp
  rw [hsplit]
  exact List.drop_left' (by simp; omega)

/-- Arithmetic core of the round-trip property: with
v = g^x mod N, A = g^a mod N, B = (k*v + g^b) mod N, the client
premaster (B - k*(g^x mod N))^(a + u*x) mod N (subtraction in ℤ) equals
the server premaster ((v^u mod N) * A)^b mod N. -/
theorem premaster_eq (N g k x u a b : Nat) (hN : 0 < N) :
    ((((((k * (g ^ x % N) % N) + g ^ b % N) % N : Nat) : Int)
          - (k : Int) * ((g ^ x % N : Nat) : Int)) ^ (a + u * x) % (N : Int)).toNat
      = ((g ^ x % N) ^ u % N * (g ^ a % N)) ^ b % N := by
  haveI : NeZero N := ⟨by omega⟩
  have hNz : ((N : Int)) ≠ 0 := by
    exact_mod_cast (by omega : N ≠ 0)
  set E : Int := (((((k * (g ^ x % N) % N) + g ^ b % N) % N : Nat) : Int)
      - (k : Int) * ((g ^ x % N : Nat) : Int)) ^ (a + u * x) with hE
  have h0 : 0 ≤ E % (N : Int) := Int.emod_nonneg E hNz
  have h1 : E % (N : Int) < (N : Int) := Int.emod_lt_of_pos E (by exact_mod_cast hN)
  have hlt1 : (E % (N : Int)).toNat < N := by omega
  have hlt2 : ((g ^ x % N) ^ u % N * (g ^ a % N)) ^ b % N < N := Nat.mod_lt _ hN
  have hcast : (((E % (N : Int)).toNat : ZMod N))
      = ((((g ^ x % N) ^ u % N * (g ^ a % N)) ^ b % N : Nat) : ZMod N) := by
    have hL : (((E % (N : Int)).toNat : ZMod N)) = ((E : ZMod N)) := by
      have h2 : (((E % (N : Int)).toNat : Int)) = E % (N : Int) := Int.toNat_of_nonneg h0
      calc (((E % (N : Int)).toNat : ZMod N))
          = ((((E % (N : Int)).toNat : Int) : ZMod N)) := by push_cast; ring
        _ = (((E % (N : Int) : Int) : ZMod N)) := by rw [h2]
        _ = ((E : ZMod N)) := ZMod.intCast_mod E N
    rw [hL, hE]
    push_cast [ZMod.natCast_mod, ZMod.intCast_mod]
    ring
  have hval := congrArg ZMod.val hcast
  rwa [ZMod.val_cast_of_lt hlt1, ZMod.val_cast_of_lt hlt2] at hval

/-- Premaster agreement phrased over the embedded functions. -/
theorem computeClientS_eq_computeServerS (p : Params) (hN : 0 < p.N) (k x u a b : Nat) :
    computeClientS p k x u (((k * (p.g ^ x % p.N) % p.N) + p.g ^ b % p.N) % p.N) a
      = computeServerS p (p.g ^ x % p.N) u (p.g ^ a % p.N) b := by
  unfold computeClientS computeServerS
  exact premaster_eq p.N p.g k x u a b hN

theorem NewServer_ok {p : Params} {username salt verifier randKey : List Nat} {s : Server}
    (h : NewServer p username salt verifier randKey = .ok s) :
    ∃ k t, computeLittleK p = .ok k ∧
      NewTriplet username salt verifier = .ok t ∧
      s = ⟨t, none, bytesToNat randKey,
           ((k * bytesToNat verifier % p.N) + p.g ^ bytesToNat randKey % p.N) % p.N,
           none, none, none, none, p, none, false⟩ := by
  unfold NewServer at h
  split at h
  · exact Except.noConfusion h
  · rename_i k hk
    split at h
    · exact Except.noConfusion h
    · rename_i t ht
      cases h
      exact ⟨k, t, hk, ht, rfl⟩

theorem serverSetAVal_ok {s : Server} {A : Nat} {s' : Server}
    (h : serverSetAVal s A = .ok s') :
    ∃ u M1 S K,
      isValidEphemeralKey s.params A = true ∧
      computeLittleU s.params A s.xB = .ok u ∧
      S = computeServerS s.params (bytesToNat (tripletVerifier s.triplet)) u A s.b ∧
      K = s.params.hashBytes (natToBytes S) ∧
      computeM1 s.params (tripletUsername s.triplet) (tripletSalt s.triplet) A s.xB K
        = .ok M1 ∧
      s' = { s with
             xA := some A,
             m1 := some M1,
             m2 := some (computeM2 s.params A M1 K),
             xS := some S,
             xK := some K } := by
  unfold serverSetAVal at h
  dsimp only at h
  split at h
  · exact Except.noConfusion h
  · rename_i hvalid
    split at h
    · exact Except.noConfusion h
    · rename_i u hu
      split at h
      · exact Except.noConfusion h
      · rename_i M1 hm1
        cases h
        exact ⟨u, M1, _, _, by simpa using hvalid, hu, rfl, rfl, hm1, rfl⟩

theorem clientSetB_ok {c : Client} {pub : List Nat} {c' : Client}
    (h : clientSetB c pub = .ok c') :
    ∃ k u M1 S K,
      isValidEphemeralKey c.params (bytesToNat pub) = true ∧
      computeLittleK c.params = .ok k ∧
      computeLittleU c.params c.xA (bytesToNat pub) = .ok u ∧
      u ≠ 0 ∧
      S = computeClientS c.params k c.x u (bytesToNat pub) c.a ∧
      K = c.params.hashBytes (natToBytes S) ∧
      computeM1 c.params c.username c.salt c.xA (bytesToNat pub) K = .ok M1 ∧
      c' = { c with
             xB := some (bytesToNat pub),
             m1 := some M1,
             m2 := some (computeM2 c.params c.xA M1 K),
             xS := some S,
             xK := some K } := by
  unfold clientSetB at h
  dsimp only at h
  split at h
  · exact Except.noConfusion h
  · rename_i hvalid
    split at h
    · exact Except.noConfusion h
    · rename_i k hk
      split at h
      · exact Except.noConfusion h
      · rename_i u hu
        split at h
        · exact Except.noConfusion h
        · rename_i hune
          split at h
          · exact Except.noConfusion h
          · rename_i M1 hm1
            cases h
            exact ⟨k, u, M1, _, _, by simpa using hvalid, hk, hu, hune, rfl, rfl, hm1, rfl⟩

/-- C1: for every registered group and every username, password and salt
of valid lengths, after a full honest exchange (server constructed with
the verifier derived from the same password, `server.SetA(client.A())`,
`client.SetB(server.B())`, `server.CheckM1` of the client M1 succeeding,
`client.CheckM2` of the server M2 succeeding), the client session key
equals the server session key byte for byte.  Both proof checks are
additionally shown to succeed. -/
theorem honestExchange_agrees (nfkd : List Nat → List Nat) (p : Params)
    (hN : 0 < p.N) (hlen : ∀ bs, (p.hash bs).length = p.hashSize)
    (username password salt randC randS : List Nat)
    (r : Bool × Bool × List Nat × List Nat)
    (h : honestExchange nfkd p username password salt randC randS = .ok r) :
    r.1 = true ∧ r.2.1 = true ∧ r.2.2.1 = r.2.2.2 := by
  unfold honestExchange at h
  cases hcv : ComputeVerifier nfkd p username password salt with
  | error e => rw [hcv] at h; exact Except.noConfusion h
  | ok t =>
  rw [hcv] at h
  dsimp only at h
  have hcv' : NewTriplet username salt
      (natToBytes (p.g ^ bytesToNat (p.kdf (nfkd username) (nfkd password) salt) % p.N))
      = .ok t := hcv
  obtain ⟨hul, hsl, htshape⟩ := NewTriplet_ok hcv'
  have husr : tripletUsername t = username := by
    rw [htshape]; exact tripletUsername_encode _ _ _
  have hsalt : tripletSalt t = salt := by
    rw [htshape]; exact tripletSalt_encode _ _ _
  have hverif : tripletVerifier t
      = natToBytes (p.g ^ bytesToNat (p.kdf (nfkd username) (nfkd password) salt) % p.N) := by
    rw [htshape]; exact tripletVerifier_encode _ _ _
  cases hns : NewServer p username salt (tripletVerifier t) randS with
  | error e => rw [hns] at h; exact Except.noConfusion h
  | ok s₀ =>
  rw [hns] at h
  dsimp only at h
  obtain ⟨k, t₂, hk, hnt₂, hs₀⟩ := NewServer_ok hns
  have ht₂ : t₂ = t := by
    rw [hverif, hcv'] at hnt₂
    cases hnt₂; rfl
  subst ht₂
  have hbv : bytesToNat (tripletVerifier t₂)
      = p.g ^ bytesToNat (p.kdf (nfkd username) (nfkd password) salt) % p.N := by
    rw [hverif, bytesToNat_natToBytes]
  rw [hbv] at hs₀
  have hc : NewClient nfkd p username password salt randC
      = ⟨username, salt, bytesToNat (p.kdf (nfkd username) (nfkd password) salt),
         bytesToNat randC, p.g ^ bytesToNat randC % p.N,
         none, none, none, none, none, p⟩ := rfl
  rw [hc] at h
  cases hsa : serverSetA s₀
      (clientA ⟨username, salt, bytesToNat (p.kdf (nfkd username) (nfkd password) salt),
        bytesToNat randC, p.g ^ bytesToNat randC % p.N,
        none, none, none, none, none, p⟩) with
  | error e => rw [hsa] at h; exact Except.noConfusion h
  | ok s₁ =>
  rw [hsa] at h
  dsimp only at h
  have hsaval : serverSetAVal s₀ (p.g ^ bytesToNat randC % p.N) = .ok s₁ := by
    have hA : bytesToNat (clientA ⟨username, salt,
        bytesToNat (p.kdf (nfkd username) (nfkd password) salt),
        bytesToNat randC, p.g ^ bytesToNat randC % p.N,
        none, none, none, none, none, p⟩) = p.g ^ bytesToNat randC % p.N := by
      unfold clientA
      exact bytesToNat_natToBytes _
    rw [serverSetA, hA] at hsa
    exact hsa
  obtain ⟨u, M1v, S, K, hvalidA, hu, hS, hK, hm1, hs₁⟩ := serverSetAVal_ok hsaval
  subst hs₀
  dsimp only at hu hS hK hm1 hs₁
  rw [hbv] at hS
  rw [husr, hsalt] at hm1
  cases hsb : clientSetB ⟨username, salt,
      bytesToNat (p.kdf (nfkd username) (nfkd password) salt),
      bytesToNat randC, p.g ^ bytesToNat randC % p.N,
      none, none, none, none, none, p⟩ (serverB s₁) with
  | error e => rw [hsb] at h; exact Except.noConfusion h
  | ok c₁ =>
  rw [hsb] at h
  dsimp only at h
  obtain ⟨k₂, u₂, M1c, Sc, Kc, hvalidB, hk₂, hu₂, hu₂ne, hSc, hKc, hm1c, hc₁⟩ :=
    clientSetB_ok hsb
  dsimp only at hvalidB hk₂ hu₂ hSc hKc hm1c hc₁
  have hBbytes : bytesToNat (serverB s₁)
      = ((k * (p.g ^ bytesToNat (p.kdf (nfkd username) (nfkd password) salt) % p.N) % p.N)
          + p.g ^ bytesToNat randS % p.N) % p.N := by
    rw [serverB, bytesToNat_natToBytes, hs₁]
  rw [hBbytes] at hu₂ hSc hm1c hc₁
  have hk₂' : k = k₂ := by
    rw [hk] at hk₂; exact (Except.ok.injEq _ _).mp hk₂
  subst hk₂'
  have hu₂' : u = u₂ := by
    rw [hu] at hu₂; exact (Except.ok.injEq _ _).mp hu₂
  subst hu₂'
  have hSeq : Sc = S := by
    rw [hSc, hS]
    exact computeClientS_eq_computeServerS p hN k
      (bytesToNat (p.kdf (nfkd username) (nfkd password) salt)) u
      (bytesToNat randC) (bytesToNat randS)
  subst hSeq
  have hKeq : Kc = K := by rw [hKc, hK]
  subst hKeq
  have hM1eq : M1v = M1c := by
    rw [hm1] at hm1c; exact (Except.ok.injEq _ _).mp hm1c
  subst hM1eq
  -- run the rest of the protocol
  rw [hc₁, hs₁] at h
  simp only [clientComputeM1, serverCheckM1, serverComputeM2, clientCheckM2,
    clientSessionKey, serverSessionKey, checkProof, beq_self_eq_true, if_true] at h
  have htake : List.take p.hashSize (Kc ++ p.hash []) = Kc := by
    rw [hKc]
    exact List.take_left' (hlen _)
  rw [htake] at h
  cases h
  exact ⟨rfl, rfl, rfl⟩

/-- Witness for C1 at the toy parameter set: the exchange completes with
both checks true and identical session keys `[3]`. -/
theorem honestExchange_agrees_witness :
    honestExchange id toyP [7] [8] [9] [2] [3] = .ok (true, true, [3], [3]) ∧
      ((true, true, ([3] : List Nat), ([3] : List Nat)).1 = true ∧
       (true, true, ([3] : List Nat), ([3] : List Nat)).2.1 = true ∧
       (true, true, ([3] : List Nat), ([3] : List Nat)).2.2.1
         = (true, true, ([3] : List Nat), ([3] : List Nat)).2.2.2) :=
  ⟨by decide,
   honestExchange_agrees id toyP (by decide) (fun _ => rfl) [7] [8] [9] [2] [3]
     (true, true, [3], [3]) (by decide)⟩

/-- C2 counterexample: in a concrete session the client session key is
K itself (`[3]`), not H(K) (`[4]`): after a successful SetB with
xK = K = `[3]`, `SessionKey` returns `[3]` although `H([3]) = [4]`.
The Go expression `h.Sum(c.xK)[:h.Size()]` appends the empty-input
digest to xK and then truncates it away again. -/
theorem clientSessionKey_not_double_hash_counterexample :
    (clientSetB toyClientFresh (natToBytes 40)).map Client.xK = .ok (some [3]) ∧
    (clientSetB toyClientFresh (natToBytes 40)).map (fun c => (clientSessionKey c).1)
      = .ok (.ok [3]) ∧
    toyP.hash [3] ≠ [3] :=
  ⟨by decide, by decide, by decide⟩

/-- C2 as amended: after a successful SetB the client `SessionKey`
returns K itself (the attempted second hash is a no-op), matching the
server, which returns K directly; before SetB the client returns
NotReady. -/
theorem sessionKey_returns_K :
    (∀ (c : Client) (K : List Nat), c.xK = some K → K.length = c.params.hashSize →
        (clientSessionKey c).1 = .ok K) ∧
    (∀ c : Client, c.xK = none → (clientSessionKey c).1 = .error .clientNotReady) ∧
    (∀ (s : Server) (K : List Nat), s.err = none → s.xK = some K →
        (serverSessionKey s).1 = .ok K) := by
  refine ⟨fun c K hxK hl => ?_, fun c hxK => ?_, fun s K he hxK => ?_⟩
  · simp only [clientSessionKey, hxK]
    exact congrArg Except.ok (List.take_left' hl)
  · simp [clientSessionKey, hxK]
  · simp [serverSessionKey, he, hxK]

/-- Witness for the amended C2 at concrete sessions. -/
theorem sessionKey_returns_K_witness :
    (clientSessionKey toyClientSetB).1 = .ok [3] ∧
    (clientSessionKey toyClientFresh).1 = .error .clientNotReady ∧
    (serverSessionKey toyServerSetA).1 = .ok [3] :=
  ⟨sessionKey_returns_K.1 toyClientSetB [3] (by decide) (by decide),
   sessionKey_returns_K.2.1 toyClientFresh (by decide),
   sessionKey_returns_K.2.2 toyServerSetA [3] (by decide) (by decide)⟩

/-- C3 counterexample: in a reachable session (NewServer, then SetA),
CheckM1 with a proof that does not match the expected M1 returns
`(false, nil)` — the error component is nil, not AuthenticationFailed —
while the sticky error is latched on the session. -/
theorem checkM1_mismatch_returns_nil_error_counterexample :
    (NewServer toyP [7] [9] [8] [3]).bind (fun s => serverSetA s [4]) = .ok toyServerSetA ∧
    toyServerSetA.m1 = some 1 ∧
    natToBytes 1 ≠ [9] ∧
    (serverCheckM1 toyServerSetA [9]).1 = (false, none) ∧
    (serverCheckM1 toyServerSetA [9]).2.err = some .authenticationFailed :=
  ⟨rfl, by decide, by decide, by decide, by decide⟩

/-- C3 as amended: CheckM1 with a non-matching proof returns
`(false, nil)` and latches the sticky error AuthenticationFailed on the
session (`verifiedM1` is cleared), so all subsequent calls fail fast. -/
theorem checkM1_mismatch_latches :
    ∀ (s : Server) (M1 : List Nat) (v : Nat), s.err = none → s.m1 = some v →
      checkProof (natToBytes v) M1 = false →
      serverCheckM1 s M1 = ((false, none),
        { s with verifiedM1 := false, err := some .authenticationFailed }) := by
  intro s M1 v he hm hc
  simp [serverCheckM1, he, hm, hc]

/-- Witness for the amended C3: the concrete mismatch latches the
sticky error. -/
theorem checkM1_mismatch_latches_witness :
    serverCheckM1 toyServerSetA [9] = ((false, none), toyServerFailed) :=
  checkM1_mismatch_latches toyServerSetA [9] 1 (by decide) (by decide) (by decide)

/-- C4: once the sticky error is latched, CheckM1, ComputeM2 and
SessionKey all return the error and no secret material, and none of
them mutates the session further; Reset produces a session with the
sticky error cleared. -/
theorem sticky_error_blocks :
    ∀ (s : Server) (e : SrpError), s.err = some e →
      (∀ M1, serverCheckM1 s M1 = ((false, some e), s)) ∧
      serverComputeM2 s = (.error e, s) ∧
      serverSessionKey s = (.error e, s) ∧
      (∀ (p : Params) (username salt verifier randKey : List Nat) (s₂ : Server),
        serverReset s p username salt verifier randKey = .ok s₂ →
        s₂.err = none ∧ s₂.verifiedM1 = false) := by
  intro s e he
  refine ⟨fun M1 => ?_, ?_, ?_, fun p username salt verifier randKey s₂ h => ?_⟩
  · simp [serverCheckM1, he]
  · simp [serverComputeM2, he]
  · simp [serverSessionKey, he]
  · obtain ⟨k, t, _, _, hs⟩ := NewServer_ok h
    rw [hs]
    exact ⟨rfl, rfl⟩

/-- Witness for C4 on the concrete failed session. -/
theorem sticky_error_blocks_witness :
    serverCheckM1 toyServerFailed [1] = ((false, some .authenticationFailed), toyServerFailed) ∧
    serverComputeM2 toyServerFailed = (.error .authenticationFailed, toyServerFailed) ∧
    serverSessionKey toyServerFailed = (.error .authenticationFailed, toyServerFailed) ∧
    serverReset toyServerFailed toyP [7] [9] [8] [3] = .ok toyServerFresh ∧
    toyServerFresh.err = none ∧ toyServerFresh.verifiedM1 = false := by
  have h := sticky_error_blocks toyServerFailed .authenticationFailed (by decide)
  exact ⟨h.1 [1], h.2.1, h.2.2.1, rfl, h.2.2.2 toyP [7] [9] [8] [3] toyServerFresh rfl⟩

/-- C5 counterexample: over a parameter set whose hash digests are the
zero byte, a reachable server accepts SetA although the scrambling
parameter u it computes is zero — Server.SetA has no `u == 0` check, so
the claim that both peers fail with InvalidU is false. -/
theorem serverSetA_accepts_zero_u_counterexample :
    (NewServer pZero [7] [9] [8] [3]).bind
        (fun s => computeLittleU pZero (bytesToNat [3]) s.xB) = .ok 0 ∧
    ((NewServer pZero [7] [9] [8] [3]).bind (fun s => serverSetA s [3])).isOk = true :=
  ⟨by decide, by decide⟩

/-- C5 as amended: only the client rejects a zero scrambling parameter:
Client.SetB fails with InvalidU when u = 0 (storing nothing, since an
error is returned instead of an updated session); Server.SetA performs
no such check. -/
theorem clientSetB_rejects_zero_u :
    ∀ (c : Client) (pub : List Nat) (k : Nat),
      isValidEphemeralKey c.params (bytesToNat pub) = true →
      computeLittleK c.params = .ok k →
      computeLittleU c.params c.xA (bytesToNat pub) = .ok 0 →
      clientSetB c pub = .error .invalidU := by
  intro c pub k hv hk hu
  simp [clientSetB, hv, hk, hu]

/-- Witness for the amended C5: a concrete client over the zero-digest
parameters rejects a valid B with InvalidU because u = 0. -/
theorem clientSetB_rejects_zero_u_witness :
    isValidEphemeralKey pZero (bytesToNat [8]) = true ∧
    computeLittleK pZero = .ok 0 ∧
    computeLittleU pZero 4 (bytesToNat [8]) = .ok 0 ∧
    clientSetB toyClientZero [8] = .error .invalidU :=
  ⟨by decide, by decide, by decide,
   clientSetB_rejects_zero_u toyClientZero [8] 0 (by decide) (by decide) (by decide)⟩

/-- C6: out-of-order calls fail with a NotReady-kind error and do not
mutate the session: ComputeM2 before a successful CheckM1 (with no
sticky error) returns ErrServerNoReady or the client-must-show-proof
error, both of the NotReady kind, and returns the state unchanged;
CheckM2 before a successful SetB returns ErrClientNotReady with the
state unchanged. -/
theorem outOfOrder_notReady :
    (∀ s : Server, s.err = none → s.verifiedM1 = false →
      (serverComputeM2 s).2 = s ∧
        ∃ e, (serverComputeM2 s).1 = .error e ∧ e.isNotReadyKind = true) ∧
    (∀ (c : Client) (M2 : List Nat), c.m2 = none →
      clientCheckM2 c M2 = ((false, some .clientNotReady), c)) := by
  constructor
  · intro s he hv
    refine ⟨rfl, ?_⟩
    cases hm : s.m2 with
    | none => exact ⟨.serverNotReady, by simp [serverComputeM2, he, hm], rfl⟩
    | some m => exact ⟨.m1NotVerified, by simp [serverComputeM2, he, hm, hv], rfl⟩
  · intro c M2 hm
    simp [clientCheckM2, hm]

/-- Witness for C6 on concrete sessions. -/
theorem outOfOrder_notReady_witness :
    ((serverComputeM2 toyServerSetA).2 = toyServerSetA ∧
      ∃ e, (serverComputeM2 toyServerSetA).1 = .error e ∧ e.isNotReadyKind = true) ∧
    clientCheckM2 toyClientFresh [5] = ((false, some .clientNotReady), toyClientFresh) :=
  ⟨outOfOrder_notReady.1 toyServerSetA (by decide) (by decide),
   outOfOrder_notReady.2 toyClientFresh [5] (by decide)⟩

/-- C7: the ephemeral-key validity predicate holds exactly when
y mod N is nonzero and gcd(y, N) = 1, and SetA and SetB reject any
peer key that fails it with InvalidEphemeralKey; in particular
SetA of the zero key and SetB of N itself fail (see the witness). -/
theorem ephemeralKey_validity :
    (∀ (p : Params) (y : Nat),
        isValidEphemeralKey p y = true ↔ (y % p.N ≠ 0 ∧ Nat.gcd y p.N = 1)) ∧
    (∀ (s : Server) (pub : List Nat),
        isValidEphemeralKey s.params (bytesToNat pub) = false →
        serverSetA s pub = .error .invalidEphemeralKey) ∧
    (∀ (c : Client) (pub : List Nat),
        isValidEphemeralKey c.params (bytesToNat pub) = false →
        clientSetB c pub = .error .invalidEphemeralKey) := by
  refine ⟨fun p y => ?_, fun s pub h => ?_, fun c pub h => ?_⟩
  · unfold isValidEphemeralKey
    by_cases h1 : y % p.N = 0
    · simp [h1]
    · by_cases h2 : Nat.gcd y p.N = 1 <;> simp [h1, h2]
  · unfold serverSetA serverSetAVal
    simp [h]
  · simp [clientSetB, h]

/-- Witness for C7: SetA(0) (the empty byte string decodes to 0) and
SetB(N) are rejected at the toy parameters. -/
theorem ephemeralKey_validity_witness :
    (isValidEphemeralKey toyP (bytesToNat []) = false ∧
      serverSetA toyServerFresh [] = .error .invalidEphemeralKey) ∧
    (isValidEphemeralKey toyP (bytesToNat (natToBytes 251)) = false ∧
      clientSetB toyClientFresh (natToBytes 251) = .error .invalidEphemeralKey) ∧
    (isValidEphemeralKey toyP 4 = true ↔ (4 % toyP.N ≠ 0 ∧ Nat.gcd 4 toyP.N = 1)) :=
  ⟨⟨by decide, ephemeralKey_validity.2.1 toyServerFresh [] (by decide)⟩,
   ⟨by decide, ephemeralKey_validity.2.2 toyClientFresh (natToBytes 251) (by decide)⟩,
   ephemeralKey_validity.1 toyP 4⟩

/-- C8: after a successful SetA, Save followed by Restore with the same
parameters produces a server whose triplet, b, B, A, S, K and
verifiedM1 all equal the originals.  S and K are not part of the saved
state (`ServerState` has no field for them); Restore recomputes them by
re-running SetA on the stored A. -/
theorem save_restore_fidelity :
    ∀ (s₀ : Server) (pub : List Nat) (s₁ : Server) (st : ServerState),
      s₀.err = none → serverSetA s₀ pub = .ok s₁ → serverSave s₁ = .ok st →
      ∃ s₂, serverRestore s₁.params st = .ok s₂ ∧
        s₂.triplet = s₁.triplet ∧ s₂.b = s₁.b ∧ s₂.xB = s₁.xB ∧ s₂.xA = s₁.xA ∧
        s₂.xS = s₁.xS ∧ s₂.xK = s₁.xK ∧ s₂.verifiedM1 = s₁.verifiedM1 := by
  intro s₀ pub s₁ st he hsa hsave
  obtain ⟨u, M1v, S, K, hvalid, hu, hS, hK, hm1, hs₁⟩ := serverSetAVal_ok hsa
  subst hs₁
  unfold serverSave at hsave
  dsimp only at hsave
  rw [he] at hsave
  cases hsave
  unfold serverRestore serverSetA
  simp only [Option.map_some']
  simp only [bytesToNat_natToBytes]
  unfold serverSetAVal
  dsimp only
  simp only [hvalid, not_true_eq_false, if_false, hu]
  rw [← hS, ← hK]
  simp only [hm1]
  exact ⟨_, rfl, rfl, rfl, rfl, rfl, rfl, rfl, rfl⟩

/-- Witness for C8 on the concrete toy session. -/
theorem save_restore_fidelity_witness :
    serverSave toyServerSetA = .ok toyState ∧
    (∃ s₂, serverRestore toyServerSetA.params toyState = .ok s₂ ∧
      s₂.triplet = toyServerSetA.triplet ∧ s₂.b = toyServerSetA.b ∧
      s₂.xB = toyServerSetA.xB ∧ s₂.xA = toyServerSetA.xA ∧
      s₂.xS = toyServerSetA.xS ∧ s₂.xK = toyServerSetA.xK ∧
      s₂.verifiedM1 = toyServerSetA.verifiedM1) :=
  ⟨rfl, save_restore_fidelity toyServerFresh [4] toyServerSetA toyState (by decide) rfl rfl⟩

set_option maxRecDepth 4000 in
/-- C9: evaluation of NewTriplet at its limits.  A 256-byte username and
a 256-byte salt are rejected as the claim says, but the code checks the
salt against math.MaxInt8 = 127 (despite its own panic message naming
255), so a 128-byte salt — which the claim says must be accepted — is
rejected too; the salt bound that actually succeeds is 127.  The
rejection is moreover a panic in Go, not a recoverable TooLong error
(modelled here as an error result). -/
theorem newTriplet_limits :
    NewTriplet (List.replicate 256 117) [9] [8] = .error .tooLongUsername ∧
    NewTriplet [117] (List.replicate 256 0) [8] = .error .tooLongSalt ∧
    NewTriplet [117] (List.replicate 128 0) [8] = .error .tooLongSalt ∧
    (NewTriplet (List.replicate 255 117) (List.replicate 127 0) [8]).isOk = true :=
  ⟨by decide, by decide, by decide, by decide⟩

/-- C10: proofs travel as minimal big-endian integer encodings:
ComputeM1 returns the cached digest-as-integer re-encoded without
leading zeros, ComputeM2 likewise, CheckM2 compares the received bytes
against the minimal encoding of the cached M2, and CheckM1 compares the
received bytes against the minimal encoding of the expected M1 — so
whenever the M1 digest begins with a zero byte, the full digest is
rejected and only the shortened string is accepted. -/
theorem proofs_minimal_encoding :
    (∀ (c : Client) (m : Nat), c.m1 = some m → (clientComputeM1 c).1 = .ok (natToBytes m)) ∧
    (∀ (s : Server) (m : Nat), s.err = none → s.m2 = some m → s.verifiedM1 = true →
        (serverComputeM2 s).1 = .ok (natToBytes m)) ∧
    (∀ (c : Client) (m : Nat) (M2 : List Nat), c.m2 = some m →
        (clientCheckM2 c M2).1 = (checkProof (natToBytes m) M2, none)) ∧
    (∀ (s : Server) (d : List Nat), s.err = none → s.m1 = some (bytesToNat d) →
        d.head? = some 0 → (∀ x ∈ d, x < 256) →
        (serverCheckM1 s d).1.1 = false ∧
        (serverCheckM1 s (natToBytes (bytesToNat d))).1.1 = true) := by
  refine ⟨fun c m hm => by simp [clientComputeM1, hm],
          fun s m he hm hv => by simp [serverComputeM2, he, hm, hv],
          fun c m M2 hm => by simp [clientCheckM2, hm],
          fun s d he hm hh hbytes => ?_⟩
  obtain ⟨t, rfl⟩ : ∃ t, d = 0 :: t := by
    cases d with
    | nil => exact absurd hh (by simp)
    | cons a t =>
      simp only [List.head?_cons, Option.some.injEq] at hh
      exact ⟨t, by rw [hh]⟩
  have hne : natToBytes (bytesToNat (0 :: t)) ≠ 0 :: t := by
    intro heq
    have hlen2 : (natToBytes (bytesToNat (0 :: t))).length ≤ t.length := by
      rw [bytesToNat_zero_cons]
      exact natToBytes_length_le (bytesToNat_lt (fun x hx => hbytes x (by simp [hx])))
    rw [heq] at hlen2
    simp only [List.length_cons] at hlen2
    omega
  constructor
  · have hfalse : checkProof (natToBytes (bytesToNat (0 :: t))) (0 :: t) = false := by
      simp only [checkProof, beq_eq_false_iff_ne, ne_eq]
      exact hne
    simp [serverCheckM1, he, hm, hfalse]
  · have htrue : checkProof (natToBytes (bytesToNat (0 :: t)))
        (natToBytes (bytesToNat (0 :: t))) = true := by
      simp [checkProof]
    simp [serverCheckM1, he, hm, htrue]

/-- Witness for C10 over the parameters whose digests start with a zero
byte: the expected M1 digest is `[0, 5]`, the full digest is rejected
and the stripped encoding `[5]` is accepted; CheckM2 on a session whose
cached M2 is 5 likewise rejects the two-byte form `[0, 5]` and accepts
the minimal `[5]`. -/
theorem proofs_minimal_encoding_witness :
    (clientComputeM1 toyClientSetB).1 = .ok [1] ∧
    (serverComputeM2 { toyServerTwo with verifiedM1 := true }).1 = .ok [5] ∧
    (clientCheckM2 { toyClientSetB with m2 := some 5 } [0, 5]).1 = (false, none) ∧
    (clientCheckM2 { toyClientSetB with m2 := some 5 } [5]).1 = (true, none) ∧
    (serverCheckM1 toyServerTwo [0, 5]).1.1 = false ∧
    (serverCheckM1 toyServerTwo (natToBytes (bytesToNat [0, 5]))).1.1 = true ∧
    natToBytes (bytesToNat [0, 5]) = [5] :=
  ⟨proofs_minimal_encoding.1 toyClientSetB 1 (by decide),
   proofs_minimal_encoding.2.1 { toyServerTwo with verifiedM1 := true } 5
     (by decide) (by decide) (by decide),
   (proofs_minimal_encoding.2.2.1 { toyClientSetB with m2 := some 5 } 5 [0, 5]
     (by decide)).trans (by decide),
   (proofs_minimal_encoding.2.2.1 { toyClientSetB with m2 := some 5 } 5 [5]
     (by decide)).trans (by decide),
   (proofs_minimal_encoding.2.2.2 toyServerTwo [0, 5]
     (by decide) (by decide) (by decide) (by decide)).1,
   (proofs_minimal_encoding.2.2.2 toyServerTwo [0, 5]
     (by decide) (by decide) (by decide) (by decide)).2,
   by decide⟩

end Srp









